import Mathlib

/-!
Shallow embedding of the WIT Kaggle dataset builder
(src/tensorflow_datasets/vision_language/wit_kaggle/wit_kaggle.py): the row
readers, the keyed co-grouping, and the per-key example synthesis performed by
the nested functions of `WitKaggle._generate_examples`.

Python dicts are embedded as association lists, csv rows as lists of strings,
raised exceptions as `Except Err`, the Beam metrics counters as an explicitly
returned `Counters` delta, and image bytes as `List Nat`.
-/

/-- Exceptions the embedded code can raise: `valueError` for a failed tuple
unpacking (wrong column count in `_read_pixel_rows` / `_read_resnet_rows`),
`keyError` for a missing dict key, `floatParseError` for Python's
`float(x)` failing on a non-numeric token, and `typeError` for
`io.BytesIO(tf.io.encode_base64(sample_image))` at wit_kaggle.py line 310:
`tf.io.encode_base64` returns a string-dtype EagerTensor, which is not the
bytes-like object `io.BytesIO` requires, so that debug print raises
`TypeError` whenever it runs. -/
inductive Err where
  | valueError
  | keyError
  | floatParseError
  | typeError
deriving DecidableEq

/-- The four Beam metrics counters used by `_process_examples`:
`("image_pixels", "multiple")`, `("image_pixels", "missing")`,
`("image_resnet", "multiple")` and `("image_resnet", "missing")`. -/
structure Counters where
  pixelMultiple : Nat
  pixelMissing : Nat
  resnetMultiple : Nat
  resnetMissing : Nat
deriving DecidableEq

def Counters.zero : Counters := ⟨0, 0, 0, 0⟩

def Counters.add (a b : Counters) : Counters :=
  ⟨a.pixelMultiple + b.pixelMultiple, a.pixelMissing + b.pixelMissing,
   a.resnetMultiple + b.resnetMultiple, a.resnetMissing + b.resnetMissing⟩

/-- `n` repetitions of the same per-sample counter delta. -/
def Counters.nsmul : Nat → Counters → Counters
  | 0, _ => Counters.zero
  | n + 1, c => c.add (Counters.nsmul n c)

/-- `WitKaggleConfig`: the split-specific feature keys (the keys of
`split_specific_features`) and `resnet_embedding_shape` (2048 in the source's
default). -/
structure WitKaggleConfig where
  split_specific_features : List String
  resnet_embedding_shape : Nat
deriving DecidableEq

/-- `WitKaggleConfig.EMPTY_IMAGE_BYTES`: base64 of a blank 1x1 image, used as
the placeholder for missing images. -/
def EMPTY_IMAGE_BYTES : String :=
  "iVBORw0KGgoAAAANSUhEUgAAAAEAAAABCAYAAAAfFcSJAAAADUlEQVR42mP8z/C/HgAGgwJ/lK3Q6wAAAABJRU5ErkJggg=="

/-- Python dict lookup on an association list: the value of the first binding
of key `k`, or `none` when `k` is absent. -/
def lookup? {α : Type} (d : List (String × α)) (k : String) : Option α :=
  (d.find? (fun p => p.1 = k)).map (fun p => p.2)

/-- The value of base64 alphabet character `c` (padding and foreign
characters map to 0; they are only reached on malformed input). -/
def b64val (c : Char) : Nat :=
  if 'A' ≤ c ∧ c ≤ 'Z' then c.toNat - 65
  else if 'a' ≤ c ∧ c ≤ 'z' then c.toNat - 71
  else if '0' ≤ c ∧ c ≤ '9' then c.toNat + 4
  else if c = '+' then 62
  else if c = '/' then 63
  else 0

/-- Base64 decoding of a character stream, four characters (24 bits, three
output bytes) at a time, honouring trailing pad characters. -/
def b64decodeChars : List Char → List Nat
  | a :: b :: c :: d :: rest =>
    let n := b64val a * 262144 + b64val b * 4096 + b64val c * 64 + b64val d
    let bytes := [n / 65536, n / 256 % 256, n % 256]
    (if d = '=' then if c = '=' then bytes.take 1 else bytes.take 2 else bytes)
      ++ b64decodeChars rest
  | _ => []

/-- `base64.b64decode` on a string, as the list of decoded byte values. In
the reachable paths of the embedded code this is only ever applied to the
fixed, well-formed `EMPTY_IMAGE_BYTES` constant: the one call on an arbitrary
representation sits after the raising debug print of the unique-pixel branch
(wit_kaggle.py line 311, dead code behind line 310), so Python's
`binascii.Error` behaviour on malformed input is unreachable and not
modelled. -/
def b64decode (s : String) : List Nat := b64decodeChars s.data

/-- Decimal value of a list of digit characters. -/
def digitsToNat (cs : List Char) : Nat :=
  cs.foldl (fun a c => a * 10 + (c.toNat - 48)) 0

/-- The value a successful `float(x)` call produces: a finite decimal,
represented exactly as `mantissa * 10 ^ exp10`, or one of Python's special
float values (`inf` with its sign, `nan`). The pipeline never computes with
the parsed floats, so this representation models all it observes: which
strings parse, and the data they carry. -/
inductive PyFloat where
  | finite (mantissa exp10 : Int)
  | inf (negative : Bool)
  | nan
deriving DecidableEq

/-- ASCII lowercasing, for the case-insensitive `inf` / `infinity` / `nan`
forms `float(x)` accepts. -/
def lowerAscii (c : Char) : Char :=
  if 'A' ≤ c ∧ c ≤ 'Z' then Char.ofNat (c.toNat + 32) else c

/-- Fuelled worker for `spanDigitsUnd`; the fuel is structural so that the
kernel can evaluate it, and any fuel above the list length is enough. -/
def spanDigitsUndAux : Nat → List Char → List Char × List Char
  | 0, cs => ([], cs)
  | fuel + 1, cs =>
    match cs with
    | [] => ([], [])
    | c :: rest =>
      if c.isDigit then
        match rest with
        | '_' :: d :: rest2 =>
          if d.isDigit then
            let (g, r) := spanDigitsUndAux fuel (d :: rest2)
            (c :: g, r)
          else ([c], '_' :: d :: rest2)
        | _ =>
          let (g, r) := spanDigitsUndAux fuel rest
          (c :: g, r)
      else ([], c :: rest)

/-- The maximal leading run of decimal digits with embedded single
underscores, as Python 3.6+ number grammar allows (`digit (["_"] digit)*`):
returns the digits with underscores removed, and the unconsumed rest. An
underscore not followed by a digit is not consumed, so `"1_"` leaves `"_"`
behind and the caller rejects it, as `float` does. -/
def spanDigitsUnd (cs : List Char) : List Char × List Char :=
  spanDigitsUndAux (cs.length + 1) cs

/-- Optional exponent suffix of a Python float literal: empty input keeps the
mantissa, `e`/`E` followed by an optionally signed non-empty digit run
shifts the decimal exponent, anything else is rejected. -/
def pyExp (mant exp10 : Int) (cs : List Char) : Option PyFloat :=
  match cs with
  | [] => some (.finite mant exp10)
  | e :: rest =>
    if e = 'e' ∨ e = 'E' then
      let (esgn, rest2) : Int × List Char :=
        match rest with
        | '+' :: r => (1, r)
        | '-' :: r => (-1, r)
        | r => (1, r)
      let (ed, rem) := spanDigitsUnd rest2
      if ed.isEmpty ∨ ¬ rem.isEmpty then none
      else some (.finite mant (exp10 + esgn * (digitsToNat ed : Int)))
    else none

/-- Core of the Python `float(x)` model: an optional sign, then either a
case-insensitive `inf` / `infinity` / `nan`, or `digits [. digits]` /
`. digits` with an optional exponent, digit runs admitting embedded
underscores. -/
def pyFloatCore (cs : List Char) : Option PyFloat :=
  let (sgn, cs1) : Int × List Char :=
    match cs with
    | '+' :: rest => (1, rest)
    | '-' :: rest => (-1, rest)
    | rest => (1, rest)
  let low := cs1.map lowerAscii
  if low = ['i', 'n', 'f'] ∨ low = ['i', 'n', 'f', 'i', 'n', 'i', 't', 'y'] then
    some (.inf (decide (sgn < 0)))
  else if low = ['n', 'a', 'n'] then some .nan
  else
    let (ip, cs2) := spanDigitsUnd cs1
    match cs2 with
    | '.' :: rest =>
      let (fp, cs3) := spanDigitsUnd rest
      if ip.isEmpty ∧ fp.isEmpty then none
      else pyExp (sgn * (digitsToNat (ip ++ fp) : Int)) (-(fp.length : Int)) cs3
    | _ => if ip.isEmpty then none else pyExp (sgn * (digitsToNat ip : Int)) 0 cs2

/-- Leading and trailing whitespace removed from a character list (the
stripping `float(x)` applies to its argument). -/
def trimChars (cs : List Char) : List Char :=
  ((cs.dropWhile Char.isWhitespace).reverse.dropWhile Char.isWhitespace).reverse

/-- Python's `float(x)` builtin: surrounding whitespace is stripped; finite
decimal literals (with optional digit underscores), `inf`, `infinity` and
`nan` parse; a malformed literal is `none` (raises `ValueError` in Python).
Only ASCII decimal digits are modelled (Python additionally accepts other
Unicode decimal digits; no input of this dataset uses them). -/
def pyFloat? (s : String) : Option PyFloat := pyFloatCore (trimChars s.data)

/-- `WitKaggleConfig.EMPTY_RESNET_EMBEDDING = [0] * resnet_embedding_shape`:
the zero-vector sentinel used when no embedding can be resolved. -/
def WitKaggleConfig.EMPTY_RESNET_EMBEDDING (cfg : WitKaggleConfig) : List PyFloat :=
  List.replicate cfg.resnet_embedding_shape (.finite 0 0)

/-- Splitting a character list at every comma, keeping empty pieces, as
Python's `s.split(",")` does (`""` gives `[""]`, `"a,,b"` gives
`["a", "", "b"]`). -/
def splitCommas : List Char → List (List Char)
  | [] => [[]]
  | c :: rest =>
    let r := splitCommas rest
    if c = ',' then [] :: r else (c :: r.headI) :: r.tail

/-- Python's `s.split(",")`. -/
def pySplitComma (s : String) : List String := (splitCommas s.data).map String.mk

/-- `[float(x) for x in toks]`: all tokens parsed, or the parse error. -/
def parseFloats : List String → Except Err (List PyFloat)
  | [] => .ok []
  | t :: ts =>
    match pyFloat? t with
    | none => .error .floatParseError
    | some v =>
      match parseFloats ts with
      | .error e => .error e
      | .ok vs => .ok (v :: vs)

/-- Decimal digit characters of `n`, most significant first; structural on a
fuel argument so that the kernel can evaluate it (any `fuel > n` gives the
true rendering). -/
def natCharsAux : Nat → Nat → List Char
  | 0, _ => []
  | fuel + 1, n =>
    if n < 10 then [Nat.digitChar n]
    else natCharsAux fuel (n / 10) ++ [Nat.digitChar (n % 10)]

/-- Decimal rendering of a natural number, modelling Python's `str(i)` on the
`enumerate` index. -/
def natStr (n : Nat) : String := String.mk (natCharsAux (n + 1) n)

/-- `sample_id = f"{i}_{sample_url}"` in `_process_examples`. -/
def sampleId (i : Nat) (url : String) : String := natStr i ++ "_" ++ url

/-- One output example of `_process_examples`, embedding the Python `sample`
dict: the common fields become structure fields; `image = none` records that
the key `"image"` was never assigned; `caption_defaulted` records whether
`sample["caption_title_and_reference_description"] = ""` ran (the key was
absent from `sample_info`). -/
structure OutSample where
  image_url : String
  split_fields : List (String × Option String)
  caption_defaulted : Bool
  image : Option (List Nat)
  metadata_url : String
  embedding : List PyFloat
deriving DecidableEq

/-- The loop `for feature_key in self.builder_config.split_specific_features.keys():
sample[feature_key] = sample_info[feature_key]`; a key absent from
`sample_info` raises `KeyError`. Also used by `_read_samples_rows`, whose
comprehension reads the same keys from the csv row dict. -/
def getSplitFields : List String → List (String × Option String) →
    Except Err (List (String × Option String))
  | [], _ => .ok []
  | k :: ks, si =>
    match lookup? si k with
    | none => .error .keyError
    | some v =>
      match getSplitFields ks si with
      | .error e => .error e
      | .ok rest => .ok ((k, v) :: rest)

/-- `"caption_title_and_reference_description" not in sample_info`. -/
def captionDefaulted (si : List (String × Option String)) : Bool :=
  ! si.any (fun p => p.1 = "caption_title_and_reference_description")

/-- Pixel resolution of `_process_examples` (the first if/else chain), on the
distinct values of `sample_fields["image_pixels"]`. With exactly one
distinct (representation, metadata_url) pair the source unpacks
`sample_fields["image_pixels"][0]` and then executes
`print(io.BytesIO(tf.io.encode_base64(sample_image)))` (line 310), which
raises `TypeError` — `io.BytesIO` rejects the EagerTensor — before the
decoded bytes or the metadata locator are ever assigned; the two following
source lines are dead code, so this branch is an error. More than one
distinct value increments the `("image_pixels", "multiple")` counter and
leaves `sample["image"]` unassigned (`none`); zero distinct values increment
`("image_pixels", "missing")` and use the placeholder; both set
`metadata_url` to `""`. -/
def resolvePixels (px : List (String × String)) :
    Except Err (Option (List Nat) × String × Counters) :=
  if px.dedup.length = 1 then
    .error .typeError
  else if 1 < px.dedup.length then
    .ok (none, "", ⟨1, 0, 0, 0⟩)
  else
    .ok (some (b64decode EMPTY_IMAGE_BYTES), "", ⟨0, 1, 0, 0⟩)

/-- Embedding resolution of `_process_examples` (the second if/else chain), on
the distinct values of `sample_fields["image_resnet"]`: exactly one distinct
string is split on `","` and parsed as floats (a bad token raises); more than
one increments `("image_resnet", "multiple")`, zero increments
`("image_resnet", "missing")`, and both use `EMPTY_RESNET_EMBEDDING`. -/
def resolveEmbedding (cfg : WitKaggleConfig) (rs : List String) :
    Except Err (List PyFloat × Counters) :=
  if rs.dedup.length = 1 then
    match parseFloats (pySplitComma rs.headI) with
    | .error e => .error e
    | .ok v => .ok (v, Counters.zero)
  else if 1 < rs.dedup.length then
    .ok (cfg.EMPTY_RESNET_EMBEDDING, ⟨0, 0, 1, 0⟩)
  else
    .ok (cfg.EMPTY_RESNET_EMBEDDING, ⟨0, 0, 0, 1⟩)

/-- The loop body of `_process_examples` for the sample at index `i`:
builds the id and the sample dict, copies the split-specific fields, applies
the caption default, and resolves pixels and embedding. -/
def processOneSample (cfg : WitKaggleConfig) (url : String) (i : Nat)
    (si : List (String × Option String)) (px : List (String × String))
    (rs : List String) : Except Err ((String × OutSample) × Counters) :=
  match getSplitFields cfg.split_specific_features si with
  | .error e => .error e
  | .ok fields =>
    match resolvePixels px with
    | .error e => .error e
    | .ok pix =>
      match resolveEmbedding cfg rs with
      | .error e => .error e
      | .ok (emb, cRes) =>
        .ok ((sampleId i url,
              ⟨url, fields, captionDefaulted si, pix.1, pix.2.1, emb⟩),
             pix.2.2.add cRes)

/-- The `for i, sample_info in enumerate(sample_fields["sample_info"])` loop,
started at index `i`, collecting the yielded `(sample_id, sample)` pairs and
the counter increments. -/
def processExamplesAux (cfg : WitKaggleConfig) (url : String)
    (px : List (String × String)) (rs : List String) :
    Nat → List (List (String × Option String)) →
    Except Err (List (String × OutSample) × Counters)
  | _, [] => .ok ([], Counters.zero)
  | i, si :: rest =>
    match processOneSample cfg url i si px rs with
    | .error e => .error e
    | .ok (out, c1) =>
      match processExamplesAux cfg url px rs (i + 1) rest with
      | .error e => .error e
      | .ok (outs, c2) => .ok (out :: outs, c1.add c2)

/-- The join result for one key, as produced by `beam.CoGroupByKey` over the
dict of the three collections in `_generate_examples`. -/
structure GroupedEntry where
  key : String
  sample_info : List (List (String × Option String))
  image_pixels : List (String × String)
  image_resnet : List String
deriving DecidableEq

/-- `_process_examples` on one grouped element `el = (sample_url,
sample_fields)`. -/
def processExamples (cfg : WitKaggleConfig) (e : GroupedEntry) :
    Except Err (List (String × OutSample) × Counters) :=
  processExamplesAux cfg e.key e.image_pixels e.image_resnet 0 e.sample_info

/-- Modelled from the spec: `beam.CoGroupByKey` is an Apache Beam framework
primitive, not code of this repository; per the spec it "emits exactly one
GroupedEntry per distinct key observed across any input stream (outer join
across all streams, not inner)", each entry carrying the values each stream
contributed for that key. Emission order is unspecified; this model emits in
first-occurrence order of the deduplicated key list. -/
def coGroupByKey (samples : List (String × List (String × Option String)))
    (pixels : List (String × (String × String)))
    (resnets : List (String × String)) : List GroupedEntry :=
  ((samples.map Prod.fst ++ pixels.map Prod.fst ++ resnets.map Prod.fst).dedup).map
    (fun k =>
      ⟨k, (samples.filter (fun p => p.1 = k)).map Prod.snd,
          (pixels.filter (fun p => p.1 = k)).map Prod.snd,
          (resnets.filter (fun p => p.1 = k)).map Prod.snd⟩)

/-- `_read_pixel_rows`: each csv row must unpack as
`image_url, image_representation, metadata_url = row`; any other column
count raises `ValueError`. -/
def readPixelRows : List (List String) → Except Err (List (String × (String × String)))
  | [] => .ok []
  | row :: rest =>
    match row with
    | [image_url, image_representation, metadata_url] =>
      match readPixelRows rest with
      | .error e => .error e
      | .ok tl => .ok ((image_url, (image_representation, metadata_url)) :: tl)
    | _ => .error .valueError

/-- `_read_resnet_rows`: each csv row must unpack as
`image_url, image_representation = row`; any other column count raises
`ValueError`. -/
def readResnetRows : List (List String) → Except Err (List (String × String))
  | [] => .ok []
  | row :: rest =>
    match row with
    | [image_url, image_representation] =>
      match readResnetRows rest with
      | .error e => .error e
      | .ok tl => .ok ((image_url, image_representation) :: tl)
    | _ => .error .valueError

/-- One row of `csv.DictReader`: header fields are paired with the row's
values positionally; a short row leaves the trailing fields at `None`
(DictReader's `restval`), surplus values go to the `None` restkey, which no
string lookup can reach and which is therefore not represented. -/
def dictReaderRow : List String → List String → List (String × Option String)
  | [], _ => []
  | h :: hs, [] => (h, none) :: dictReaderRow hs []
  | h :: hs, v :: vs => (h, some v) :: dictReaderRow hs vs

/-- The row loop of `_read_samples_rows` over one file's data rows (after the
header): builds the row dict, copies the configured feature keys (raising
`KeyError` only when a key is missing from the header), and yields
`(row["image_url"], sample)`. -/
def readSamplesRowsAux (cfgKeys : List String) (header : List String) :
    List (List String) →
    Except Err (List (Option String × List (String × Option String)))
  | [] => .ok []
  | row :: rest =>
    let d := dictReaderRow header row
    match getSplitFields cfgKeys d with
    | .error e => .error e
    | .ok sample =>
      match lookup? d "image_url" with
      | none => .error .keyError
      | some url =>
        match readSamplesRowsAux cfgKeys header rest with
        | .error e => .error e
        | .ok tl => .ok ((url, sample) :: tl)

/-- `_read_samples_rows` on one tsv file, given as header row plus data rows
(`csv.DictReader` takes the first row as the header; an empty file yields
nothing). -/
def readSamplesRows (cfgKeys : List String) :
    List (List String) →
    Except Err (List (Option String × List (String × Option String)))
  | [] => .ok []
  | header :: rows => readSamplesRowsAux cfgKeys header rows

/-- The per-sample counter delta of one grouped key: the pixel counters from
`resolvePixels` plus the embedding counters from `resolveEmbedding` (only
meaningful when both succeed). -/
def perSampleCounters (cfg : WitKaggleConfig) (px : List (String × String))
    (rs : List String) : Counters :=
  match resolvePixels px, resolveEmbedding cfg rs with
  | .ok pix, .ok (_, cr) => (pix.2.2).add cr
  | _, _ => Counters.zero

/-- The `test` config's split-specific feature keys, with a small embedding
shape for concrete runs. -/
def cfgTest : WitKaggleConfig := ⟨["id", "image_url"], 2⟩

/-- Component formula for repeated counter addition. -/
theorem Counters.nsmul_components (n : Nat) (c : Counters) :
    (Counters.nsmul n c).pixelMultiple = n * c.pixelMultiple ∧
    (Counters.nsmul n c).pixelMissing = n * c.pixelMissing ∧
    (Counters.nsmul n c).resnetMultiple = n * c.resnetMultiple ∧
    (Counters.nsmul n c).resnetMissing = n * c.resnetMissing := by
  induction n with
  | zero => simp [Counters.nsmul, Counters.zero]
  | succ n ih =>
    obtain ⟨h1, h2, h3, h4⟩ := ih
    refine ⟨?_, ?_, ?_, ?_⟩ <;>
      simp only [Counters.nsmul, Counters.add, h1, h2, h3, h4] <;> ring

/-- A list whose deduplication is the singleton `[a]` has head `a`. -/
theorem headI_dedup_singleton {α : Type} [DecidableEq α] [Inhabited α]
    {l : List α} {a : α} (h : l.dedup = [a]) : l.headI = a := by
  cases l with
  | nil => simp at h
  | cons x xs =>
    have hx : x ∈ (x :: xs).dedup := List.mem_dedup.mpr (List.mem_cons_self x xs)
    rw [h] at hx
    simpa [List.headI] using hx

/-- Pixel resolution at a key with exactly one distinct pixel value raises:
the debug print at line 310 runs `io.BytesIO` on a tensor. -/
theorem resolvePixels_raises_of_single {px : List (String × String)}
    {v : String × String} (h : px.dedup = [v]) :
    resolvePixels px = .error .typeError := by
  have h1 : px.dedup.length = 1 := by rw [h]; rfl
  simp [resolvePixels, h1]

/-- Pixel resolution at a key with more than one distinct pixel value:
the `"image"` key is never assigned and the `multiple` counter ticks. -/
theorem resolvePixels_of_multiple {px : List (String × String)}
    (h : 1 < px.dedup.length) :
    resolvePixels px = .ok (none, "", ⟨1, 0, 0, 0⟩) := by
  have h1 : px.dedup.length ≠ 1 := by omega
  simp [resolvePixels, h1, h]

/-- Pixel resolution at a key with no pixel values. -/
theorem resolvePixels_of_nil :
    resolvePixels [] = .ok (some (b64decode EMPTY_IMAGE_BYTES), "", ⟨0, 1, 0, 0⟩) := rfl

/-- Successful pixel resolution never touches the embedding counters. -/
theorem resolvePixels_resnet_counters {px : List (String × String)}
    {pix : Option (List Nat) × String × Counters}
    (h : resolvePixels px = .ok pix) :
    (pix.2.2).resnetMultiple = 0 ∧ (pix.2.2).resnetMissing = 0 := by
  unfold resolvePixels at h
  split_ifs at h
  · cases h; exact ⟨rfl, rfl⟩
  · cases h; exact ⟨rfl, rfl⟩

/-- All tokens parse in an `ok` run of `parseFloats`, one output per token. -/
theorem parseFloats_length : ∀ {ts : List String} {vs : List PyFloat},
    parseFloats ts = .ok vs → vs.length = ts.length := by
  intro ts
  induction ts with
  | nil => intro vs h; cases h; rfl
  | cons t ts ih =>
    intro vs h
    unfold parseFloats at h
    cases hp : pyFloat? t with
    | none => rw [hp] at h; cases h
    | some v =>
      rw [hp] at h
      cases hr : parseFloats ts with
      | error e => rw [hr] at h; cases h
      | ok ws => rw [hr] at h; cases h; simp [ih hr]

/-- Embedding resolution at a key with exactly one distinct embedding string:
it is the parse of that string's comma-separated tokens, with no counter
increment. -/
theorem resolveEmbedding_of_single {cfg : WitKaggleConfig} {rs : List String}
    {s : String} {v : List PyFloat} {cr : Counters} (h : rs.dedup = [s])
    (he : resolveEmbedding cfg rs = .ok (v, cr)) :
    parseFloats (pySplitComma s) = .ok v ∧ cr = Counters.zero := by
  have h1 : rs.dedup.length = 1 := by rw [h]; rfl
  have h2 : rs.headI = s := headI_dedup_singleton h
  rw [resolveEmbedding, if_pos h1, h2] at he
  cases hp : parseFloats (pySplitComma s) with
  | error e => rw [hp] at he; cases he
  | ok vs => rw [hp] at he; cases he; exact ⟨rfl, rfl⟩

/-- Embedding resolution at a key with no embedding values: the zero-vector
sentinel, and one `missing` tick. -/
theorem resolveEmbedding_of_nil (cfg : WitKaggleConfig) :
    resolveEmbedding cfg [] = .ok (cfg.EMPTY_RESNET_EMBEDDING, ⟨0, 0, 0, 1⟩) := rfl

/-- Embedding resolution at a key with more than one distinct embedding
value: the zero-vector sentinel, and one `multiple` tick. -/
theorem resolveEmbedding_of_multiple (cfg : WitKaggleConfig) {rs : List String}
    (h : 1 < rs.dedup.length) :
    resolveEmbedding cfg rs = .ok (cfg.EMPTY_RESNET_EMBEDDING, ⟨0, 0, 1, 0⟩) := by
  have h1 : rs.dedup.length ≠ 1 := by omega
  simp [resolveEmbedding, h1, h]

/-- Embedding resolution never touches the pixel counters. -/
theorem resolveEmbedding_pixel_counters {cfg : WitKaggleConfig} {rs : List String}
    {v : List PyFloat} {cr : Counters} (h : resolveEmbedding cfg rs = .ok (v, cr)) :
    cr.pixelMultiple = 0 ∧ cr.pixelMissing = 0 := by
  unfold resolveEmbedding at h
  split_ifs at h
  · cases hp : parseFloats (pySplitComma rs.headI) with
    | error e => rw [hp] at h; cases h
    | ok vs => rw [hp] at h; cases h; exact ⟨rfl, rfl⟩
  · cases h; exact ⟨rfl, rfl⟩
  · cases h; exact ⟨rfl, rfl⟩

/-- Inversion of one successful loop iteration of `_process_examples`: the
yielded id and the fields of the yielded sample, and the counter delta; in
particular pixel resolution did not raise. -/
theorem processOneSample_ok {cfg : WitKaggleConfig} {url : String} {i : Nat}
    {si : List (String × Option String)} {px : List (String × String)}
    {rs : List String} {o : String × OutSample} {c : Counters}
    (h : processOneSample cfg url i si px rs = .ok (o, c)) :
    o.1 = sampleId i url ∧ o.2.image_url = url ∧
    (∃ pix, resolvePixels px = .ok pix ∧ o.2.image = pix.1 ∧
      o.2.metadata_url = pix.2.1 ∧
      ∃ cr, resolveEmbedding cfg rs = .ok (o.2.embedding, cr) ∧
        c = (pix.2.2).add cr) := by
  unfold processOneSample at h
  cases hf : getSplitFields cfg.split_specific_features si with
  | error e => rw [hf] at h; cases h
  | ok fields =>
    rw [hf] at h
    cases hp : resolvePixels px with
    | error e => simp only [hp] at h; cases h
    | ok pix =>
      cases he : resolveEmbedding cfg rs with
      | error e => simp only [hp, he] at h; cases h
      | ok pr =>
        obtain ⟨emb, cRes⟩ := pr
        simp only [hp, he, Except.ok.injEq, Prod.mk.injEq] at h
        obtain ⟨h1, h2⟩ := h
        subst h1 h2
        exact ⟨rfl, rfl, pix, rfl, rfl, rfl, cRes, rfl, rfl⟩

/-- Characterisation of a successful run of the whole enumerate loop of
`_process_examples`, started at index `i`: one output per sample entry, ids
in order, the same resolved pixel and embedding data in every output, and the
per-sample counter delta repeated once per sample. -/
theorem processExamplesAux_ok {cfg : WitKaggleConfig} {url : String}
    {px : List (String × String)} {rs : List String} :
    ∀ {i : Nat} {sis : List (List (String × Option String))}
      {outs : List (String × OutSample)} {c : Counters},
    processExamplesAux cfg url px rs i sis = .ok (outs, c) →
    outs.length = sis.length ∧
    outs.map Prod.fst = (List.range sis.length).map (fun j => sampleId (i + j) url) ∧
    (∀ o ∈ outs, o.2.image_url = url ∧
      (∃ pix, resolvePixels px = .ok pix ∧ o.2.image = pix.1 ∧
        o.2.metadata_url = pix.2.1) ∧
      ∃ cr, resolveEmbedding cfg rs = .ok (o.2.embedding, cr)) ∧
    c = Counters.nsmul sis.length (perSampleCounters cfg px rs) := by
  intro i sis
  induction sis generalizing i with
  | nil =>
    intro outs c h
    cases h
    exact ⟨rfl, rfl, fun o ho => absurd ho (List.not_mem_nil o), rfl⟩
  | cons si rest ih =>
    intro outs c h
    unfold processExamplesAux at h
    cases h1 : processOneSample cfg url i si px rs with
    | error e => rw [h1] at h; cases h
    | ok oc =>
      obtain ⟨o1, c1⟩ := oc
      rw [h1] at h
      cases h2 : processExamplesAux cfg url px rs (i + 1) rest with
      | error e => simp only [h2] at h; cases h
      | ok rc =>
        obtain ⟨outs', c2⟩ := rc
        simp only [h2, Except.ok.injEq, Prod.mk.injEq] at h
        obtain ⟨h3, h4⟩ := h
        subst h3 h4
        obtain ⟨hid, hurl, pix, hpix, himg, hmeta, cr, hcr, hc1⟩ :=
          processOneSample_ok h1
        obtain ⟨ihlen, ihids, ihall, ihc⟩ := ih h2
        refine ⟨by simp [ihlen], ?_, ?_, ?_⟩
        · rw [List.map_cons, hid, ihids, List.length_cons,
            List.range_succ_eq_map, List.map_cons, List.map_map]
          congr 1
          apply List.map_congr_left
          intro j _
          simp only [Function.comp_apply]
          congr 1
          omega
        · intro o ho
          rcases List.mem_cons.mp ho with rfl | ho'
          · exact ⟨hurl, ⟨pix, hpix, himg, hmeta⟩, cr, hcr⟩
          · exact ihall o ho'
        · have hper : perSampleCounters cfg px rs = c1 := by
            unfold perSampleCounters
            rw [hpix, hcr, hc1]
          simp only [List.length_cons, Counters.nsmul, hper, ihc]

/-- With positive fuel the decimal rendering is never empty. -/
theorem natCharsAux_ne_nil {f n : Nat} (hf : 0 < f) : natCharsAux f n ≠ [] := by
  cases f with
  | zero => omega
  | succ f =>
    by_cases hn : n < 10
    · simp [natCharsAux, hn]
    · simp [natCharsAux, hn]

/-- Decimal renderings consist of digit characters only, never `'_'`. -/
theorem natCharsAux_no_underscore : ∀ f n : Nat, '_' ∉ natCharsAux f n := by
  intro f
  have hd : ∀ m : Nat, m < 10 → Nat.digitChar m ≠ '_' := by decide
  induction f with
  | zero => intro n; simp [natCharsAux]
  | succ f ih =>
    intro n
    by_cases hn : n < 10
    · simp [natCharsAux, hn]
      exact fun he => hd n hn he.symm
    · simp [natCharsAux, hn, List.mem_append]
      refine ⟨fun he => ih (n / 10) he, fun he => ?_⟩
      exact hd (n % 10) (Nat.mod_lt n (by omega)) he.symm

/-- Decimal renderings with sufficient fuel are injective in the number. -/
theorem natCharsAux_inj : ∀ f1 f2 m n : Nat, m < f1 → n < f2 →
    natCharsAux f1 m = natCharsAux f2 n → m = n := by
  have hd1 : ∀ a : Nat, a < 10 → ∀ b : Nat, b < 10 →
      Nat.digitChar a = Nat.digitChar b → a = b := by decide
  intro f1
  induction f1 with
  | zero => intro f2 m n hm; omega
  | succ f1 ih =>
    intro f2 m n hm hn heq
    cases f2 with
    | zero => omega
    | succ f2 =>
      by_cases hm10 : m < 10 <;> by_cases hn10 : n < 10
      · simp only [natCharsAux, if_pos hm10, if_pos hn10, List.cons.injEq, and_true] at heq
        exact hd1 m hm10 n hn10 heq
      · exfalso
        simp only [natCharsAux, if_pos hm10, if_neg hn10] at heq
        have hlen := congrArg List.length heq
        simp only [List.length_append, List.length_cons, List.length_nil] at hlen
        have hne : natCharsAux f2 (n / 10) ≠ [] := natCharsAux_ne_nil (by omega)
        have hpos := List.length_pos.mpr hne
        omega
      · exfalso
        simp only [natCharsAux, if_neg hm10, if_pos hn10] at heq
        have hlen := congrArg List.length heq
        simp only [List.length_append, List.length_cons, List.length_nil] at hlen
        have hne : natCharsAux f1 (m / 10) ≠ [] := natCharsAux_ne_nil (by omega)
        have hpos := List.length_pos.mpr hne
        omega
      · simp only [natCharsAux, if_neg hm10, if_neg hn10] at heq
        have hlen := congrArg List.length heq
        simp only [List.length_append, List.length_cons, List.length_nil] at hlen
        obtain ⟨hpre, hlast⟩ := List.append_inj heq (by omega)
        have hdiv : m / 10 = n / 10 := by
          apply ih f2 (m / 10) (n / 10) ?_ ?_ hpre
          · have : m / 10 < m := Nat.div_lt_self (by omega) (by omega)
            omega
          · have : n / 10 < n := Nat.div_lt_self (by omega) (by omega)
            omega
        have hmod : m % 10 = n % 10 := by
          have h1 := List.cons.inj hlast
          exact hd1 (m % 10) (Nat.mod_lt m (by omega)) (n % 10) (Nat.mod_lt n (by omega)) h1.1
        have h2 := Nat.div_add_mod m 10
        have h3 := Nat.div_add_mod n 10
        omega

/-- Splitting at the first `'_'` of a character list is unambiguous when
neither prefix contains `'_'`. -/
theorem append_underscore_inj : ∀ (a1 : List Char) {b1 : List Char}
    (a2 : List Char) {b2 : List Char}, '_' ∉ a1 → '_' ∉ a2 →
    a1 ++ '_' :: b1 = a2 ++ '_' :: b2 → a1 = a2 ∧ b1 = b2 := by
  intro a1
  induction a1 with
  | nil =>
    intro b1 a2 b2 _ h2 heq
    cases a2 with
    | nil =>
      simp only [List.nil_append, List.cons.injEq, true_and] at heq
      exact ⟨rfl, heq⟩
    | cons x xs =>
      exfalso
      simp only [List.nil_append, List.cons_append, List.cons.injEq] at heq
      exact h2 (heq.1 ▸ List.mem_cons_self x xs)
  | cons y ys ih =>
    intro b1 a2 b2 h1 h2 heq
    cases a2 with
    | nil =>
      exfalso
      simp only [List.cons_append, List.nil_append, List.cons.injEq] at heq
      exact h1 (heq.1 ▸ List.mem_cons_self y ys)
    | cons x xs =>
      simp only [List.cons_append, List.cons.injEq] at heq
      obtain ⟨hy, hrest⟩ := heq
      have h1' : '_' ∉ ys := fun hm => h1 (List.mem_cons_of_mem y hm)
      have h2' : '_' ∉ xs := fun hm => h2 (List.mem_cons_of_mem x hm)
      obtain ⟨ha, hb⟩ := ih xs h1' h2' hrest
      exact ⟨by rw [hy, ha], hb⟩

/-- The character data of a generated example id: the decimal index, an
underscore, the key. -/
theorem sampleId_data (i : Nat) (url : String) :
    (sampleId i url).data = natCharsAux (i + 1) i ++ '_' :: url.data := by
  cases url with
  | mk d =>
    show (natCharsAux (i + 1) i ++ ['_']) ++ d = natCharsAux (i + 1) i ++ '_' :: d
    rw [List.append_assoc]
    rfl

/-- A pixel row of the wrong arity (≠ 3 columns) anywhere in the input makes
`_read_pixel_rows` raise, yielding nothing for that row. -/
theorem readPixelRows_error_of_bad : ∀ {rows : List (List String)},
    (∃ r ∈ rows, r.length ≠ 3) → readPixelRows rows = .error .valueError := by
  intro rows
  induction rows with
  | nil => rintro ⟨r, hr, _⟩; cases hr
  | cons row rest ih =>
    rintro ⟨r, hr, hlen⟩
    rcases List.mem_cons.mp hr with rfl | hr'
    · rcases r with _ | ⟨a, _ | ⟨b, _ | ⟨c, _ | ⟨d, tl⟩⟩⟩⟩
      · rfl
      · rfl
      · rfl
      · exact absurd rfl hlen
      · rfl
    · have hrest := ih ⟨r, hr', hlen⟩
      rcases row with _ | ⟨a, _ | ⟨b, _ | ⟨c, _ | ⟨d, tl⟩⟩⟩⟩ <;>
        simp [readPixelRows, hrest]

/-- Pixel rows of the right arity all read successfully. -/
theorem readPixelRows_ok_of_good : ∀ {rows : List (List String)},
    (∀ r ∈ rows, r.length = 3) → ∃ out, readPixelRows rows = .ok out := by
  intro rows
  induction rows with
  | nil => intro _; exact ⟨[], rfl⟩
  | cons row rest ih =>
    intro hall
    obtain ⟨out, hout⟩ := ih (fun r hr => hall r (List.mem_cons_of_mem row hr))
    have hrow := hall row (List.mem_cons_self row rest)
    rcases row with _ | ⟨a, _ | ⟨b, _ | ⟨c, _ | ⟨d, tl⟩⟩⟩⟩ <;> simp at hrow
    exact ⟨(a, (b, c)) :: out, by simp [readPixelRows, hout]⟩

/-- An embedding row of the wrong arity (≠ 2 columns) anywhere in the input
makes `_read_resnet_rows` raise, yielding nothing for that row. -/
theorem readResnetRows_error_of_bad : ∀ {rows : List (List String)},
    (∃ r ∈ rows, r.length ≠ 2) → readResnetRows rows = .error .valueError := by
  intro rows
  induction rows with
  | nil => rintro ⟨r, hr, _⟩; cases hr
  | cons row rest ih =>
    rintro ⟨r, hr, hlen⟩
    rcases List.mem_cons.mp hr with rfl | hr'
    · rcases r with _ | ⟨a, _ | ⟨b, _ | ⟨c, tl⟩⟩⟩
      · rfl
      · rfl
      · exact absurd rfl hlen
      · rfl
    · have hrest := ih ⟨r, hr', hlen⟩
      rcases row with _ | ⟨a, _ | ⟨b, _ | ⟨c, tl⟩⟩⟩ <;>
        simp [readResnetRows, hrest]

/-- Embedding rows of the right arity all read successfully. -/
theorem readResnetRows_ok_of_good : ∀ {rows : List (List String)},
    (∀ r ∈ rows, r.length = 2) → ∃ out, readResnetRows rows = .ok out := by
  intro rows
  induction rows with
  | nil => intro _; exact ⟨[], rfl⟩
  | cons row rest ih =>
    intro hall
    obtain ⟨out, hout⟩ := ih (fun r hr => hall r (List.mem_cons_of_mem row hr))
    have hrow := hall row (List.mem_cons_self row rest)
    rcases row with _ | ⟨a, _ | ⟨b, _ | ⟨c, tl⟩⟩⟩ <;> simp at hrow
    exact ⟨(a, b) :: out, by simp [readResnetRows, hout]⟩

/-- A `csv.DictReader` row dict always carries exactly the header's keys,
whatever the row's arity. -/
theorem dictReaderRow_keys : ∀ (header row : List String),
    (dictReaderRow header row).map Prod.fst = header := by
  intro header
  induction header with
  | nil => intro row; rfl
  | cons h hs ih =>
    intro row
    cases row with
    | nil => simp [dictReaderRow, ih]
    | cons v vs => simp [dictReaderRow, ih]

/-- Lookup succeeds on every key the dict carries. -/
theorem lookup_isSome_of_mem {α : Type} (d : List (String × α)) {k : String}
    (h : k ∈ d.map Prod.fst) : ∃ v, lookup? d k = some v := by
  induction d with
  | nil => cases h
  | cons p rest ih =>
    by_cases hp : p.1 = k
    · exact ⟨p.2, by simp [lookup?, List.find?, hp]⟩
    · have h' : k ∈ rest.map Prod.fst := by
        rcases List.mem_cons.mp h with h1 | h1
        · exact absurd h1.symm hp
        · exact h1
      obtain ⟨v, hv⟩ := ih h'
      refine ⟨v, ?_⟩
      simp only [lookup?, List.find?] at hv ⊢
      simp [hp, hv]

/-- The split-field copy succeeds whenever every configured key is in the
dict. -/
theorem getSplitFields_ok_of_keys : ∀ {ks : List String}
    {d : List (String × Option String)},
    (∀ k ∈ ks, ∃ v, lookup? d k = some v) →
    ∃ out, getSplitFields ks d = .ok out := by
  intro ks
  induction ks with
  | nil => intro d _; exact ⟨[], rfl⟩
  | cons k rest ih =>
    intro d hall
    obtain ⟨v, hv⟩ := hall k (List.mem_cons_self k rest)
    obtain ⟨out, hout⟩ := ih (fun k' hk' => hall k' (List.mem_cons_of_mem k hk'))
    exact ⟨(k, v) :: out, by simp [getSplitFields, hv, hout]⟩

/-- The sample reader succeeds on rows of any arity, as long as the header
carries the configured keys and the `image_url` column. -/
theorem readSamplesRows_ok {cfgKeys header : List String}
    (hk : ∀ k ∈ cfgKeys, k ∈ header) (hu : "image_url" ∈ header) :
    ∀ {rows : List (List String)},
    ∃ out, readSamplesRows cfgKeys (header :: rows) = .ok out := by
  suffices haux : ∀ rows : List (List String),
      ∃ out, readSamplesRowsAux cfgKeys header rows = .ok out by
    intro rows
    obtain ⟨out, hout⟩ := haux rows
    exact ⟨out, hout⟩
  intro rows
  induction rows with
  | nil => exact ⟨[], rfl⟩
  | cons row rest ih =>
    obtain ⟨out, hout⟩ := ih
    have hkeys : (dictReaderRow header row).map Prod.fst = header :=
      dictReaderRow_keys header row
    obtain ⟨fields, hfields⟩ := getSplitFields_ok_of_keys
      (fun k hk' => lookup_isSome_of_mem _ (hkeys ▸ hk k hk'))
    obtain ⟨url, hurl⟩ := lookup_isSome_of_mem (dictReaderRow header row)
      (hkeys ▸ hu)
    exact ⟨(url, fields) :: out, by simp [readSamplesRowsAux, hfields, hurl, hout]⟩

/-- With one distinct embedding string, the per-sample counter delta has no
embedding component, whatever pixel resolution did. -/
theorem perSample_resnet_single (cfg : WitKaggleConfig)
    (px : List (String × String)) {rs : List String} {s : String}
    (hs : rs.dedup = [s]) :
    (perSampleCounters cfg px rs).resnetMultiple = 0 ∧
    (perSampleCounters cfg px rs).resnetMissing = 0 := by
  unfold perSampleCounters
  cases hpx : resolvePixels px with
  | error e => exact ⟨rfl, rfl⟩
  | ok pix =>
    cases hre : resolveEmbedding cfg rs with
    | error e => exact ⟨rfl, rfl⟩
    | ok pr =>
      obtain ⟨v, cr⟩ := pr
      obtain ⟨-, hcr0⟩ := resolveEmbedding_of_single hs hre
      subst hcr0
      obtain ⟨ha, hb⟩ := resolvePixels_resnet_counters hpx
      simp [Counters.add, Counters.zero, ha, hb]

/-- With no embedding values and successful pixel resolution, the per-sample
counter delta is one `missing` tick on the embedding side. -/
theorem perSample_resnet_nil (cfg : WitKaggleConfig)
    {px : List (String × String)}
    {pix : Option (List Nat) × String × Counters}
    (hpx : resolvePixels px = .ok pix) :
    (perSampleCounters cfg px []).resnetMissing = 1 ∧
    (perSampleCounters cfg px []).resnetMultiple = 0 := by
  unfold perSampleCounters
  rw [hpx, resolveEmbedding_of_nil]
  obtain ⟨ha, hb⟩ := resolvePixels_resnet_counters hpx
  simp [Counters.add, ha, hb]

/-- With several distinct embedding values and successful pixel resolution,
the per-sample counter delta is one `multiple` tick on the embedding side. -/
theorem perSample_resnet_multiple (cfg : WitKaggleConfig)
    {px : List (String × String)} {rs : List String}
    {pix : Option (List Nat) × String × Counters}
    (hpx : resolvePixels px = .ok pix) (h : 1 < rs.dedup.length) :
    (perSampleCounters cfg px rs).resnetMultiple = 1 ∧
    (perSampleCounters cfg px rs).resnetMissing = 0 := by
  unfold perSampleCounters
  rw [hpx, resolveEmbedding_of_multiple cfg h]
  obtain ⟨ha, hb⟩ := resolvePixels_resnet_counters hpx
  simp [Counters.add, ha, hb]

/-- A concrete test-split sample row dict. -/
def siS : List (String × Option String) := [("id", some "s"), ("image_url", some "u")]

/-- A concrete test-split sample row dict (first language variant). -/
def siX : List (String × Option String) := [("id", some "x"), ("image_url", some "u")]

/-- A concrete test-split sample row dict (second language variant). -/
def siY : List (String × Option String) := [("id", some "y"), ("image_url", some "u")]

/-- A concrete grouped key with two samples, no pixel rows and one embedding
row; its synthesis completes (no pixel row means the raising debug print of
the unique-pixel branch never runs). -/
def entryM : GroupedEntry := ⟨"u", [siX, siY], [], ["1.0,2.0"]⟩

/-- The examples `_process_examples` yields on `entryM`. -/
def outsM : List (String × OutSample) :=
  [("0_u", ⟨"u", siX, true, some (b64decode EMPTY_IMAGE_BYTES), "",
      [.finite 10 (-1), .finite 20 (-1)]⟩),
   ("1_u", ⟨"u", siY, true, some (b64decode EMPTY_IMAGE_BYTES), "",
      [.finite 10 (-1), .finite 20 (-1)]⟩)]

/-- The counter delta `_process_examples` accumulates on `entryM`: one
`("image_pixels", "missing")` tick per sample. -/
def cM : Counters := ⟨0, 2, 0, 0⟩

/-- C1: at a grouped key with more than one distinct pixel value, the code
increments the `("image_pixels", "multiple")` counter and blanks the metadata
locator, but — contrary to the claim and to the config's own documentation of
the placeholder — it never assigns the `"image"` key of the output example:
the yielded sample has `image = none` rather than the placeholder bytes. -/
theorem wk_multiple_pixels_image_unset :
    processExamples cfgTest ⟨"u", [siS], [("A", "m1"), ("B", "m2")], ["1.5"]⟩ =
      Except.ok ([("0_u", ⟨"u", siS, true, none, "", [.finite 15 (-1)]⟩)], ⟨1, 0, 0, 0⟩) ∧
    ([("A", "m1"), ("B", "m2")] : List (String × String)).dedup.length = 2 :=
  ⟨rfl, rfl⟩

/-- C2 counterexample: a grouped key with one sample, zero embedding values
and exactly one distinct pixel value aborts with the `TypeError` of the
debug print at line 310 before embedding resolution runs — no example with
the zero-vector sentinel is yielded and the `("image_resnet", "missing")`
counter never ticks, although the key has zero distinct embedding vectors. -/
theorem wk_embedding_resolution_cex :
    processExamples cfgTest ⟨"u", [siS], [("B", "m2")], []⟩ =
      Except.error Err.typeError ∧
    (GroupedEntry.mk "u" [siS] [("B", "m2")] []).image_resnet = [] ∧
    (GroupedEntry.mk "u" [siS] [("B", "m2")] []).sample_info.length = 1 :=
  ⟨rfl, rfl, rfl⟩

/-- C2 (amended): on every grouped key whose synthesis completes without
raising — keys with exactly one distinct pixel value abort on the line-310
debug print before embedding resolution — embedding resolution over the
distinct embedding values is: one distinct value gives every output the
parse of its comma-separated tokens with no embedding counter tick; zero
values give every output the zero-vector sentinel with one `missing` tick
per synthesized example; several distinct values give the sentinel with one
`multiple` tick per synthesized example. -/
theorem wk_embedding_resolution (cfg : WitKaggleConfig) (e : GroupedEntry)
    (outs : List (String × OutSample)) (c : Counters)
    (h : processExamples cfg e = .ok (outs, c)) :
    (∀ s, e.image_resnet.dedup = [s] →
      (∀ o ∈ outs, ∃ v, parseFloats (pySplitComma s) = .ok v ∧ o.2.embedding = v) ∧
      c.resnetMultiple = 0 ∧ c.resnetMissing = 0) ∧
    (e.image_resnet = [] →
      (∀ o ∈ outs, o.2.embedding = cfg.EMPTY_RESNET_EMBEDDING) ∧
      c.resnetMissing = e.sample_info.length ∧ c.resnetMultiple = 0) ∧
    (1 < e.image_resnet.dedup.length →
      (∀ o ∈ outs, o.2.embedding = cfg.EMPTY_RESNET_EMBEDDING) ∧
      c.resnetMultiple = e.sample_info.length ∧ c.resnetMissing = 0) := by
  obtain ⟨hlen, hids, hall, hc⟩ := processExamplesAux_ok h
  subst hc
  obtain ⟨n1, n2, n3, n4⟩ := Counters.nsmul_components e.sample_info.length
    (perSampleCounters cfg e.image_pixels e.image_resnet)
  refine ⟨?_, ?_, ?_⟩
  · intro s hs
    refine ⟨?_, ?_, ?_⟩
    · intro o ho
      obtain ⟨-, -, cr, hcr⟩ := hall o ho
      obtain ⟨hp, -⟩ := resolveEmbedding_of_single hs hcr
      exact ⟨o.2.embedding, hp, rfl⟩
    · obtain ⟨p1, -⟩ := perSample_resnet_single cfg e.image_pixels hs
      rw [n3, p1, Nat.mul_zero]
    · obtain ⟨-, p2⟩ := perSample_resnet_single cfg e.image_pixels hs
      rw [n4, p2, Nat.mul_zero]
  · intro hnil
    refine ⟨?_, ?_, ?_⟩
    · intro o ho
      obtain ⟨-, -, cr, hcr⟩ := hall o ho
      rw [hnil] at hcr
      have heq := (resolveEmbedding_of_nil cfg).symm.trans hcr
      simp only [Except.ok.injEq, Prod.mk.injEq] at heq
      exact heq.1.symm
    · by_cases hM : e.sample_info.length = 0
      · rw [n4, hM]; simp
      · have hne : outs ≠ [] := by
          intro h0
          rw [h0] at hlen
          simp at hlen
          omega
        obtain ⟨o, ho⟩ := List.exists_mem_of_ne_nil outs hne
        obtain ⟨-, ⟨pix, hpix, -, -⟩, -⟩ := hall o ho
        rw [hnil] at n4 ⊢
        obtain ⟨p1, -⟩ := perSample_resnet_nil cfg hpix
        rw [n4, p1, Nat.mul_one]
    · by_cases hM : e.sample_info.length = 0
      · rw [n3, hM]; simp
      · have hne : outs ≠ [] := by
          intro h0
          rw [h0] at hlen
          simp at hlen
          omega
        obtain ⟨o, ho⟩ := List.exists_mem_of_ne_nil outs hne
        obtain ⟨-, ⟨pix, hpix, -, -⟩, -⟩ := hall o ho
        rw [hnil] at n3 ⊢
        obtain ⟨-, p2⟩ := perSample_resnet_nil cfg hpix
        rw [n3, p2, Nat.mul_zero]
  · intro hmul
    refine ⟨?_, ?_, ?_⟩
    · intro o ho
      obtain ⟨-, -, cr, hcr⟩ := hall o ho
      have heq := (resolveEmbedding_of_multiple cfg hmul).symm.trans hcr
      simp only [Except.ok.injEq, Prod.mk.injEq] at heq
      exact heq.1.symm
    · by_cases hM : e.sample_info.length = 0
      · rw [n3, hM]; simp
      · have hne : outs ≠ [] := by
          intro h0
          rw [h0] at hlen
          simp at hlen
          omega
        obtain ⟨o, ho⟩ := List.exists_mem_of_ne_nil outs hne
        obtain ⟨-, ⟨pix, hpix, -, -⟩, -⟩ := hall o ho
        obtain ⟨p1, -⟩ := perSample_resnet_multiple cfg hpix hmul
        rw [n3, p1, Nat.mul_one]
    · by_cases hM : e.sample_info.length = 0
      · rw [n4, hM]; simp
      · have hne : outs ≠ [] := by
          intro h0
          rw [h0] at hlen
          simp at hlen
          omega
        obtain ⟨o, ho⟩ := List.exists_mem_of_ne_nil outs hne
        obtain ⟨-, ⟨pix, hpix, -, -⟩, -⟩ := hall o ho
        obtain ⟨-, p2⟩ := perSample_resnet_multiple cfg hpix hmul
        rw [n4, p2, Nat.mul_zero]

/-- Witness for the amended C2 at a concrete grouped key with one distinct
embedding string. -/
theorem wk_embedding_resolution_witness :
    processExamples cfgTest entryM = Except.ok (outsM, cM) ∧
    (∀ s, entryM.image_resnet.dedup = [s] →
      (∀ o ∈ outsM, ∃ v, parseFloats (pySplitComma s) = .ok v ∧ o.2.embedding = v) ∧
      cM.resnetMultiple = 0 ∧ cM.resnetMissing = 0) :=
  ⟨rfl, (wk_embedding_resolution cfgTest entryM outsM cM rfl).1⟩

/-- C3: at a grouped key with exactly one distinct pixel value, the claimed
behaviour — yield the base64-decoded representation and the metadata
locator, counters unchanged — never happens: the branch executes
`print(io.BytesIO(tf.io.encode_base64(sample_image)))` (line 310), which
raises `TypeError` before the decoded bytes or the metadata are assigned, so
the whole key's synthesis aborts and nothing is yielded. -/
theorem wk_unique_pixel_raises :
    processExamples cfgTest ⟨"u", [siS], [("AAAA", "m1")], ["1.5"]⟩ =
      Except.error Err.typeError ∧
    ([("AAAA", "m1")] : List (String × String)).dedup = [("AAAA", "m1")] :=
  ⟨rfl, rfl⟩

/-- C4 counterexample: a grouped key with M = 1 sample entries and one
distinct pixel value produces zero output examples, not one — its synthesis
aborts with the `TypeError` of the line-310 debug print on the first
sample. -/
theorem wk_sample_fanout_cex :
    processExamples cfgTest ⟨"u", [siS], [("A", "m1")], ["1.5"]⟩ =
      Except.error Err.typeError ∧
    (GroupedEntry.mk "u" [siS] [("A", "m1")] ["1.5"]).sample_info.length = 1 :=
  ⟨rfl, rfl⟩

/-- C4 (amended): a grouped key with M sample entries whose synthesis
completes without raising — keys with exactly one distinct pixel value abort
on the line-310 debug print and yield nothing — yields exactly M output
examples, with ids exactly `"{i}_{key}"` for `i = 0 .. M-1` in order, and
all M examples carry the same resolved image bytes, metadata locator and
embedding. -/
theorem wk_sample_fanout (cfg : WitKaggleConfig) (e : GroupedEntry)
    (outs : List (String × OutSample)) (c : Counters)
    (h : processExamples cfg e = .ok (outs, c)) :
    outs.length = e.sample_info.length ∧
    outs.map Prod.fst =
      (List.range e.sample_info.length).map (fun j => sampleId j e.key) ∧
    (∀ o1 ∈ outs, ∀ o2 ∈ outs, o1.2.image = o2.2.image ∧
      o1.2.metadata_url = o2.2.metadata_url ∧ o1.2.embedding = o2.2.embedding) := by
  obtain ⟨hlen, hids, hall, -⟩ := processExamplesAux_ok h
  refine ⟨hlen, ?_, ?_⟩
  · rw [hids]
    apply List.map_congr_left
    intro j _
    congr 1
    omega
  · intro o1 h1 o2 h2
    obtain ⟨-, ⟨pix1, hpix1, hi1, hm1⟩, cr1, hcr1⟩ := hall o1 h1
    obtain ⟨-, ⟨pix2, hpix2, hi2, hm2⟩, cr2, hcr2⟩ := hall o2 h2
    have hpix : pix1 = pix2 := by
      have := hpix1.symm.trans hpix2
      simpa using this
    subst hpix
    refine ⟨by rw [hi1, hi2], by rw [hm1, hm2], ?_⟩
    have heq := hcr1.symm.trans hcr2
    simp only [Except.ok.injEq, Prod.mk.injEq] at heq
    exact heq.1

/-- Witness for the amended C4 at a concrete grouped key with two samples. -/
theorem wk_sample_fanout_witness :
    processExamples cfgTest entryM = Except.ok (outsM, cM) ∧
    (outsM.length = entryM.sample_info.length ∧
      outsM.map Prod.fst =
        (List.range entryM.sample_info.length).map (fun j => sampleId j entryM.key) ∧
      (∀ o1 ∈ outsM, ∀ o2 ∈ outsM, o1.2.image = o2.2.image ∧
        o1.2.metadata_url = o2.2.metadata_url ∧ o1.2.embedding = o2.2.embedding)) :=
  ⟨rfl, wk_sample_fanout cfgTest entryM outsM cM rfl⟩

/-- C7: a grouped key with an empty sample set produces no output examples,
no error and no counter tick, whatever pixel or embedding values it has. -/
theorem wk_no_sample_drop (cfg : WitKaggleConfig) (key : String)
    (px : List (String × String)) (rs : List String) :
    processExamples cfg ⟨key, [], px, rs⟩ = .ok ([], Counters.zero) := rfl

/-- C8 counterexample: with the default configured shape 2048, a key with no
pixel rows (so synthesis completes) and exactly one distinct embedding
string of only two comma-separated tokens yields an output example whose
embedding has length 2, not 2048 — the code never checks the parsed vector
against `resnet_embedding_shape`. -/
theorem wk_embedding_length_counterexample :
    (processExamples ⟨["id", "image_url"], 2048⟩
        ⟨"u", [siS], [], ["1.0,2.0"]⟩).map
      (fun r => r.1.map (fun o => o.2.embedding.length)) = Except.ok [2] ∧
    (2 : Nat) ≠ 2048 :=
  ⟨rfl, by decide⟩

/-- C8 (amended): the zero-vector sentinel always has the configured length,
so outputs built from zero or multiple distinct embedding values have an
embedding of length `resnet_embedding_shape`; with exactly one distinct
embedding string the output embedding\'s length is the number of
comma-separated tokens of that string, which need not be the configured
length. -/
theorem wk_embedding_length (cfg : WitKaggleConfig) (e : GroupedEntry)
    (outs : List (String × OutSample)) (c : Counters)
    (h : processExamples cfg e = .ok (outs, c)) :
    ∀ o ∈ outs,
      (e.image_resnet.dedup.length ≠ 1 →
        o.2.embedding.length = cfg.resnet_embedding_shape) ∧
      (∀ s, e.image_resnet.dedup = [s] →
        o.2.embedding.length = (pySplitComma s).length) := by
  obtain ⟨-, -, hall, -⟩ := processExamplesAux_ok h
  intro o ho
  obtain ⟨-, -, cr, hcr⟩ := hall o ho
  constructor
  · intro hne
    by_cases h2 : 1 < e.image_resnet.dedup.length
    · have heq := (resolveEmbedding_of_multiple cfg h2).symm.trans hcr
      simp only [Except.ok.injEq, Prod.mk.injEq] at heq
      rw [← heq.1]
      simp [WitKaggleConfig.EMPTY_RESNET_EMBEDDING]
    · have h0 : e.image_resnet.dedup.length = 0 := by omega
      have hnil : e.image_resnet = [] :=
        (List.dedup_eq_nil _).mp (List.length_eq_zero.mp h0)
      rw [hnil] at hcr
      have heq := (resolveEmbedding_of_nil cfg).symm.trans hcr
      simp only [Except.ok.injEq, Prod.mk.injEq] at heq
      rw [← heq.1]
      simp [WitKaggleConfig.EMPTY_RESNET_EMBEDDING]
  · intro s hs
    obtain ⟨hp, -⟩ := resolveEmbedding_of_single hs hcr
    exact parseFloats_length hp

/-- Witness for the amended C8 at a concrete grouped key. -/
theorem wk_embedding_length_witness :
    processExamples cfgTest entryM = Except.ok (outsM, cM) ∧
    (∀ o ∈ outsM,
      (entryM.image_resnet.dedup.length ≠ 1 →
        o.2.embedding.length = cfgTest.resnet_embedding_shape) ∧
      (∀ s, entryM.image_resnet.dedup = [s] →
        o.2.embedding.length = (pySplitComma s).length)) :=
  ⟨rfl, wk_embedding_length cfgTest entryM outsM cM rfl⟩

/-- C9: example ids are injective in the (sample index, key) pair — two
distinct pairs always render to distinct `"{i}_{key}"` strings (and the id is
a pure function of the pair, so it is deterministic). -/
theorem wk_sample_id_injective (i1 : Nat) (k1 : String) (i2 : Nat) (k2 : String)
    (hne : (i1, k1) ≠ (i2, k2)) : sampleId i1 k1 ≠ sampleId i2 k2 := by
  intro heq
  have hd := congrArg String.data heq
  rw [sampleId_data, sampleId_data] at hd
  obtain ⟨ha, hb⟩ := append_underscore_inj _ _
    (natCharsAux_no_underscore _ _) (natCharsAux_no_underscore _ _) hd
  have hi : i1 = i2 :=
    natCharsAux_inj _ _ _ _ (Nat.lt_succ_self i1) (Nat.lt_succ_self i2) ha
  have hk : k1 = k2 := by
    cases k1 with
    | mk d1 =>
      cases k2 with
      | mk d2 => simp only at hb; rw [hb]
  exact hne (by rw [hi, hk])

/-- Witness for C9 at two concrete distinct pairs. -/
theorem wk_sample_id_injective_witness :
    ((0 : Nat), "a") ≠ ((1 : Nat), "a") ∧ sampleId 0 "a" ≠ sampleId 1 "a" :=
  ⟨by decide, wk_sample_id_injective 0 "a" 1 "a" (by decide)⟩

/-- C10: synthesis itself can raise outside the spec's error taxonomy: a key
with exactly one distinct embedding value whose text is not a float makes
`_process_examples` raise a parse error instead of yielding an example. -/
theorem wk_embedding_parse_error :
    processExamples cfgTest ⟨"u", [siS], [], ["abc"]⟩ =
      Except.error Err.floatParseError ∧
    (["abc"] : List String).dedup = ["abc"] ∧ pyFloat? "abc" = none :=
  ⟨rfl, rfl, rfl⟩

/-- C5 counterexample: the sample reader does not reject a malformed row —
a data row with 2 columns under a 3-column header is read without error and
yields a record (missing fields would be `None`), where the claim demands an
error and no record. -/
theorem wk_sample_reader_accepts_malformed_row :
    readSamplesRows ["id", "image_url"] [["id", "image_url", "extra"], ["a", "b"]] =
      Except.ok [(some "b", [("id", some "a"), ("image_url", some "b")])] ∧
    (["a", "b"] : List String).length ≠ (["id", "image_url", "extra"] : List String).length :=
  ⟨rfl, by decide⟩

/-- C5 (amended): the pixel and embedding readers raise on any row whose
column count is not exactly 3 resp. 2 (the error propagates and nothing is
yielded), and read every well-formed input; the sample reader, built on
`csv.DictReader`, accepts rows of any column count — it succeeds whenever the
header carries the configured keys and `image_url`, padding short rows with
`None` and ignoring surplus columns. -/
theorem wk_reader_row_arity (prows rrows : List (List String))
    (cfgKeys header : List String) (srows : List (List String)) :
    ((∃ r ∈ prows, r.length ≠ 3) → readPixelRows prows = .error .valueError) ∧
    ((∀ r ∈ prows, r.length = 3) → ∃ out, readPixelRows prows = .ok out) ∧
    ((∃ r ∈ rrows, r.length ≠ 2) → readResnetRows rrows = .error .valueError) ∧
    ((∀ r ∈ rrows, r.length = 2) → ∃ out, readResnetRows rrows = .ok out) ∧
    ((∀ k ∈ cfgKeys, k ∈ header) → "image_url" ∈ header →
      ∃ out, readSamplesRows cfgKeys (header :: srows) = .ok out) := by
  refine ⟨?_, ?_, ?_, ?_, ?_⟩
  · exact readPixelRows_error_of_bad
  · exact readPixelRows_ok_of_good
  · exact readResnetRows_error_of_bad
  · exact readResnetRows_ok_of_good
  · intro hk hu
    exact readSamplesRows_ok hk hu

/-- C6: the co-grouper emits exactly one entry per key observed in any of the
three streams (outer join): the emitted keys are duplicate-free, a key
appears among them iff it appears in some stream, and each entry carries
exactly the values each stream contributed for its key — in particular the
value lists of streams that never mention the key are empty. -/
theorem wk_cogroup_outer_join
    (samples : List (String × List (String × Option String)))
    (pixels : List (String × (String × String)))
    (resnets : List (String × String)) :
    ((coGroupByKey samples pixels resnets).map GroupedEntry.key).Nodup ∧
    (∀ k, k ∈ (coGroupByKey samples pixels resnets).map GroupedEntry.key ↔
      (k ∈ samples.map Prod.fst ∨ k ∈ pixels.map Prod.fst ∨
        k ∈ resnets.map Prod.fst)) ∧
    (∀ g ∈ coGroupByKey samples pixels resnets,
      g.sample_info = (samples.filter (fun p => p.1 = g.key)).map Prod.snd ∧
      g.image_pixels = (pixels.filter (fun p => p.1 = g.key)).map Prod.snd ∧
      g.image_resnet = (resnets.filter (fun p => p.1 = g.key)).map Prod.snd ∧
      (g.key ∉ samples.map Prod.fst → g.sample_info = []) ∧
      (g.key ∉ pixels.map Prod.fst → g.image_pixels = []) ∧
      (g.key ∉ resnets.map Prod.fst → g.image_resnet = [])) := by
  have hkeys : (coGroupByKey samples pixels resnets).map GroupedEntry.key =
      (samples.map Prod.fst ++ pixels.map Prod.fst ++ resnets.map Prod.fst).dedup := by
    unfold coGroupByKey
    rw [List.map_map]
    exact List.map_id _
  refine ⟨?_, ?_, ?_⟩
  · rw [hkeys]
    exact List.nodup_dedup _
  · intro k
    rw [hkeys, List.mem_dedup, List.mem_append, List.mem_append]
    tauto
  · intro g hg
    unfold coGroupByKey at hg
    obtain ⟨k, hk, rfl⟩ := List.mem_map.mp hg
    refine ⟨rfl, rfl, rfl, ?_, ?_, ?_⟩
    · intro habs
      have : samples.filter (fun p => p.1 = k) = [] := by
        apply List.filter_eq_nil_iff.mpr
        intro p hp
        simp only [decide_eq_true_eq]
        exact fun hpk => habs (List.mem_map.mpr ⟨p, hp, hpk⟩)
      simp [this]
    · intro habs
      have : pixels.filter (fun p => p.1 = k) = [] := by
        apply List.filter_eq_nil_iff.mpr
        intro p hp
        simp only [decide_eq_true_eq]
        exact fun hpk => habs (List.mem_map.mpr ⟨p, hp, hpk⟩)
      simp [this]
    · intro habs
      have : resnets.filter (fun p => p.1 = k) = [] := by
        apply List.filter_eq_nil_iff.mpr
        intro p hp
        simp only [decide_eq_true_eq]
        exact fun hpk => habs (List.mem_map.mpr ⟨p, hp, hpk⟩)
      simp [this]
